import Mathlib

/-!
Verification development for the portfolio-app repository.

The repository's source under `src/app.py` is a Streamlit portfolio
dashboard (configuration helpers, CSV loading, profit/loss computation).
The specification additionally describes a PKCE OAuth connect flow
(random token generation, challenge derivation, a flow-state store,
token exchange, position fetching) whose code is not present under
`src/`; those components are modelled here from the specification's
words, as marked in their doc comments.  Everything about `app.py`
(configuration parsing, CSV fallback, division guards) is embedded
directly from the Python source.
-/

namespace PortfolioApp

/-! ## Challenge derivation (SHA-256 + base64url)

Modelled from the spec: `challenge(verifier)` computes a SHA-256 digest
of the verifier's ASCII bytes, encodes it with the URL-safe base64
alphabet and strips the trailing `=` padding.  The SHA-256 compression
function below follows FIPS 180-4, with 32-bit words represented as
natural numbers reduced modulo `2 ^ 32`. -/

def w32 (n : Nat) : Nat := n % 4294967296

def rotr (n x : Nat) : Nat := w32 (x / 2 ^ n + x % 2 ^ n * 2 ^ (32 - n))

def bsig0 (x : Nat) : Nat := rotr 2 x ^^^ rotr 13 x ^^^ rotr 22 x

def bsig1 (x : Nat) : Nat := rotr 6 x ^^^ rotr 11 x ^^^ rotr 25 x

def ssig0 (x : Nat) : Nat := rotr 7 x ^^^ rotr 18 x ^^^ x / 2 ^ 3

def ssig1 (x : Nat) : Nat := rotr 17 x ^^^ rotr 19 x ^^^ x / 2 ^ 10

def chf (x y z : Nat) : Nat := x &&& y ^^^ ((x ^^^ 4294967295) &&& z)

def maj (x y z : Nat) : Nat := x &&& y ^^^ (x &&& z) ^^^ (y &&& z)

/-- The eight initial hash values of FIPS 180-4 §5.3.3, in decimal. -/
def hInit : List Nat :=
  [1779033703, 3144134277, 1013904242, 2773480762,
   1359893119, 2600822924, 528734635, 1541459225]

/-- The 64 round constants of FIPS 180-4 §4.2.2, in decimal. -/
def K256 : List Nat :=
  [1116352408, 1899447441, 3049323471, 3921009573, 961987163, 1508970993,
   2453635748, 2870763221, 3624381080, 310598401, 607225278, 1426881987,
   1925078388, 2162078206, 2614888103, 3248222580, 3835390401, 4022224774,
   264347078, 604807628, 770255983, 1249150122, 1555081692, 1996064986,
   2554220882, 2821834349, 2952996808, 3210313671, 3336571891, 3584528711,
   113926993, 338241895, 666307205, 773529912, 1294757372, 1396182291,
   1695183700, 1986661051, 2177026350, 2456956037, 2730485921, 2820302411,
   3259730800, 3345764771, 3516065817, 3600352804, 4094571909, 275423344,
   430227734, 506948616, 659060556, 883997877, 958139571, 1322822218,
   1537002063, 1747873779, 1955562222, 2024104815, 2227730452, 2361852424,
   2428436474, 2756734187, 3204031479, 3329325298]

/-- Split a list into consecutive chunks of size `n` (last chunk may be
shorter); used for 64-byte blocks and 4-byte words.  Structural
recursion on a fuel bounded by the list length, so that it reduces in
the kernel. -/
def chunksOfFuel (n : Nat) : Nat → List α → List (List α)
  | _, [] => []
  | 0, l => [l]
  | fuel + 1, l => l.take n :: chunksOfFuel n fuel (l.drop n)

def chunksOf (n : Nat) (l : List α) : List (List α) := chunksOfFuel n l.length l

/-- Big-endian 32-bit word from up to four bytes. -/
def wordOfBytes (bs : List Nat) : Nat := w32 (bs.foldl (fun a b => a * 256 + b) 0)

def toWords (block : List Nat) : List Nat := (chunksOf 4 block).map wordOfBytes

/-- Extend the 16 message-schedule words to 64. -/
def extendW (ws : List Nat) : List Nat :=
  (List.range 48).foldl
    (fun acc _ =>
      acc ++ [w32 (ssig1 (acc.getD (acc.length - 2) 0) + acc.getD (acc.length - 7) 0 +
                   ssig0 (acc.getD (acc.length - 15) 0) + acc.getD (acc.length - 16) 0)])
    ws

/-- One round of the SHA-256 compression function on the state
`[a, b, c, d, e, f, g, h]`. -/
def shaRound (st : List Nat) (kw : Nat × Nat) : List Nat :=
  match st with
  | [a, b, c, d, e, f, g, h] =>
    let t1 := w32 (h + bsig1 e + chf e f g + kw.1 + kw.2)
    let t2 := w32 (bsig0 a + maj a b c)
    [w32 (t1 + t2), a, b, c, w32 (d + t1), e, f, g]
  | other => other

def compress (h0 : List Nat) (block : List Nat) : List Nat :=
  let ws := extendW (toWords block)
  let st := (K256.zip ws).foldl shaRound h0
  (h0.zip st).map (fun p => w32 (p.1 + p.2))

def toBE32 (n : Nat) : List Nat :=
  [n / 2 ^ 24 % 256, n / 2 ^ 16 % 256, n / 2 ^ 8 % 256, n % 256]

def toBE64 (n : Nat) : List Nat :=
  [n / 2 ^ 56 % 256, n / 2 ^ 48 % 256, n / 2 ^ 40 % 256, n / 2 ^ 32 % 256,
   n / 2 ^ 24 % 256, n / 2 ^ 16 % 256, n / 2 ^ 8 % 256, n % 256]

def padZeroCount (len : Nat) : Nat := (64 - (len + 9) % 64) % 64

def shaPad (msg : List Nat) : List Nat :=
  msg ++ 0x80 :: List.replicate (padZeroCount msg.length) 0 ++ toBE64 (msg.length * 8)

/-- SHA-256 of a byte sequence, as a 32-byte sequence. -/
def sha256 (msg : List Nat) : List Nat :=
  (((chunksOf 64 (shaPad msg)).foldl compress hInit).map toBE32).flatten

/-- URL-safe base64 alphabet (RFC 4648 §5). -/
def b64Alphabet : String :=
  "ABCDEFGHIJKLMNOPQRSTUVWXYZabcdefghijklmnopqrstuvwxyz0123456789-_"

def b64List : List Char := b64Alphabet.data

def b64Char (i : Nat) : Char := b64List.getD (i % 64) 'A'

/-- Base64url body: three input bytes become four alphabet characters,
with `=` padding for a final partial group. -/
def b64Body : List Nat → List Char
  | [] => []
  | [b0] => [b64Char (b0 / 4), b64Char (b0 % 4 * 16), '=', '=']
  | [b0, b1] => [b64Char (b0 / 4), b64Char (b0 % 4 * 16 + b1 / 16), b64Char (b1 % 16 * 4), '=']
  | b0 :: b1 :: b2 :: rest =>
      b64Char (b0 / 4) :: b64Char (b0 % 4 * 16 + b1 / 16) ::
      b64Char (b1 % 16 * 4 + b2 / 64) :: b64Char (b2 % 64) :: b64Body rest

def base64url (bs : List Nat) : String := String.mk (b64Body bs)

/-- Remove the trailing `=` padding characters. -/
def stripPad (s : String) : String :=
  String.mk ((s.data.reverse.dropWhile (fun c => c == '=')).reverse)

/-- Modelled from the spec: challenge derivation (§4.2), absent from
`src/`.  `challenge(verifier) = base64url(sha256(ascii(verifier)))`
with trailing `=` stripped. -/
def challenge (v : String) : String :=
  stripPad (base64url (sha256 (v.data.map Char.toNat)))

/-! ## Random token generator

Modelled from the spec: `generate(length)` draws characters from an
alphabet of upper/lower letters, digits and the PKCE-safe punctuation
`-._~` (66 symbols); the random source is abstracted as a stream of
natural numbers. -/

def pkceAlphabet : String :=
  "ABCDEFGHIJKLMNOPQRSTUVWXYZabcdefghijklmnopqrstuvwxyz0123456789-._~"

def pkceList : List Char := pkceAlphabet.data

def pkceChar (i : Nat) : Char := pkceList.getD (i % 66) 'A'

def generate (rng : Nat → Nat) (n : Nat) : String :=
  String.mk ((List.range n).map (fun i => pkceChar (rng i)))

/-! ## Flow store

Modelled from the spec: a process-wide store keyed by flow id mapping to
`{verifier, created_at}` (§3, §4.3), absent from `src/`.  The store is
an association list with at most one live record per id; `put` inserts
with the current timestamp and silently overwrites, `pop` removes and
returns the verifier or fails with `FlowNotFound`. -/

structure FlowRecord where
  verifier : String
  created_at : Nat
deriving DecidableEq, Repr

abbrev FlowStore : Type := List (String × FlowRecord)

inductive AuthError where
  | FlowNotFound : AuthError
  | TokenExchangeFailed (status : Nat) (body : String) : AuthError
  | MissingAccessToken : AuthError
  | PositionFetchFailed (status : Nat) (body : String) : AuthError
deriving DecidableEq, Repr

def put (s : FlowStore) (flowId verifier : String) (now : Nat) : FlowStore :=
  (flowId, ⟨verifier, now⟩) :: List.filter (fun p => p.1 != flowId) s

def pop (s : FlowStore) (flowId : String) : Except AuthError (String × FlowStore) :=
  match List.lookup flowId s with
  | some r => .ok (r.verifier, List.filter (fun p => p.1 != flowId) s)
  | none => .error .FlowNotFound

/-! ## Token exchange client

Modelled from the spec: `exchange(code, flow_id)` (§4.5), absent from
`src/`.  It pops the verifier, posts the five form fields to the token
endpoint and validates the response.  The network is abstracted as a
function from the request to an HTTP response; `exchange` additionally
returns the updated store and the list of requests actually issued, so
that "no network call" and "not retried" are expressible. -/

structure TokenRequest where
  grant_type : String
  code : String
  redirect_uri : String
  client_id : String
  code_verifier : String
deriving DecidableEq, Repr

structure HttpResponse where
  status : Nat
  body : String
  accessToken : Option String
  refreshToken : Option String
deriving DecidableEq, Repr

structure TokenSet where
  access_token : String
  refresh_token : Option String
deriving DecidableEq, Repr

def isSuccess (status : Nat) : Bool := 200 ≤ status && status < 300

def mkTokenRequest (clientId redirectUri code verifier : String) : TokenRequest :=
  ⟨"authorization_code", code, redirectUri, clientId, verifier⟩

def exchange (endpoint : TokenRequest → HttpResponse) (clientId redirectUri : String)
    (store : FlowStore) (code flowId : String) :
    Except AuthError TokenSet × FlowStore × List TokenRequest :=
  match pop store flowId with
  | .error e => (.error e, store, [])
  | .ok (verifier, store2) =>
    let req := mkTokenRequest clientId redirectUri code verifier
    let resp := endpoint req
    if isSuccess resp.status then
      match resp.accessToken with
      | some tok => (.ok ⟨tok, resp.refreshToken⟩, store2, [req])
      | none => (.error .MissingAccessToken, store2, [req])
    else
      (.error (.TokenExchangeFailed resp.status resp.body), store2, [req])

/-! ## Position fetch client

Modelled from the spec: `fetchPositions(access_token)` (§4.6), absent
from `src/`.  Provider items carry nested display/valuation sub-objects
(the valuation one is named `NetPositionView` in the spec's tests); a
missing sub-object makes the corresponding row fields null rather than
failing.  The HTTP layer is abstracted as the already-received response
carrying the parsed list of items. -/

structure DisplaySub where
  symbol : String
deriving DecidableEq, Repr

structure ValuationSub where
  quantity : Rat
  average_price : Rat
  last_price : Rat
  market_value : Rat
  profit_loss : Rat
deriving DecidableEq, Repr

structure ProviderItem where
  display : Option DisplaySub
  netPositionView : Option ValuationSub
deriving DecidableEq, Repr

structure PositionRow where
  symbol : Option String
  quantity : Option Rat
  average_price : Option Rat
  last_price : Option Rat
  market_value : Option Rat
  profit_loss : Option Rat
deriving DecidableEq, Repr

structure PositionsResponse where
  status : Nat
  body : String
  items : List ProviderItem
deriving Repr

def rowOfItem (it : ProviderItem) : PositionRow :=
  ⟨it.display.map DisplaySub.symbol,
   it.netPositionView.map ValuationSub.quantity,
   it.netPositionView.map ValuationSub.average_price,
   it.netPositionView.map ValuationSub.last_price,
   it.netPositionView.map ValuationSub.market_value,
   it.netPositionView.map ValuationSub.profit_loss⟩

def fetchPositions (resp : PositionsResponse) : Except AuthError (List PositionRow) :=
  if isSuccess resp.status then .ok (resp.items.map rowOfItem)
  else .error (.PositionFetchFailed resp.status resp.body)

/-! ## Configuration helpers (`src/app.py`, `get_conf` / `get_int_conf`)

`get_conf` reads `st.secrets` first (any exception while touching the
secrets falls through), then the environment, else the default.
`get_int_conf` applies Python's `int(str(raw).strip())` and returns the
default on any parse failure.  The secrets source is `Except Unit`
(error = the `st.secrets` access raised), the environment a partial
map; Python string/int conversions are embedded below. -/

def pyStrip (s : String) : String :=
  String.mk (((s.data.dropWhile Char.isWhitespace).reverse.dropWhile Char.isWhitespace).reverse)

def digitVal (c : Char) : Nat := c.toNat - 48

/-- Value of a nonempty all-digit character list, as `int()` reads it. -/
def parseDigits (l : List Char) : Option Nat :=
  if l ≠ [] ∧ l.all Char.isDigit then some (l.foldl (fun a c => a * 10 + digitVal c) 0)
  else none

/-- Embedding of Python `int(s)` on a stripped string: optional sign
followed by ASCII digits. -/
def pyParseInt (s : String) : Option Int :=
  match s.data with
  | [] => none
  | c :: rest =>
    if c = '-' then (parseDigits rest).map (fun n => -(Int.ofNat n))
    else if c = '+' then (parseDigits rest).map Int.ofNat
    else (parseDigits (c :: rest)).map Int.ofNat

/-- Decimal digit characters of `n`, most significant first; structural
recursion on a fuel bounded by `n` itself. -/
def natDigitsFuel : Nat → Nat → List Char
  | 0, n => [Char.ofNat (48 + n % 10)]
  | fuel + 1, n =>
    if n < 10 then [Char.ofNat (48 + n)]
    else natDigitsFuel fuel (n / 10) ++ [Char.ofNat (48 + n % 10)]

def natDigitChars (n : Nat) : List Char := natDigitsFuel n n

def pyStrOfInt (d : Int) : String :=
  if d < 0 then String.mk ('-' :: natDigitChars d.natAbs)
  else String.mk (natDigitChars d.natAbs)

def get_conf (secrets : Except Unit (List (String × String)))
    (env : String → Option String) (key default : String) : String :=
  match secrets with
  | .ok m =>
    match List.lookup key m with
    | some v => v
    | none => (env key).getD default
  | .error _ => (env key).getD default

def get_int_conf (secrets : Except Unit (List (String × String)))
    (env : String → Option String) (key : String) (default : Int) : Int :=
  match pyParseInt (pyStrip (get_conf secrets env key (pyStrOfInt default))) with
  | some n => n
  | none => default

/-! ## CSV loading (`src/app.py`, `load_csv`)

`load_csv` returns `pd.read_csv(...)` when it succeeds and an empty
`DataFrame` when any exception is raised (after showing an error).  The
reader is abstracted as its outcome, `Except String Frame`; a frame is
its list of rows.  Downstream, `if equities_df.empty: st.stop()` gates
the rest of the page. -/

abbrev Frame : Type := List (List String)

def Frame.empty : Frame := ([] : List (List String))

def Frame.isEmptyF (df : Frame) : Bool := List.isEmpty df

def load_csv (result : Except String Frame) : Frame :=
  match result with
  | .ok df => df
  | .error _ => Frame.empty

/-- The `if equities_df.empty: st.stop()` gate: `true` means the page
stops before computing anything. -/
def stopsPage (df : Frame) : Bool := Frame.isEmptyF df

/-! ## Profit/loss computation (`src/app.py`, lines 144-148 and 181-184)

Pandas float columns are embedded as `Option ℚ`, `none` playing NaN
(prices can be NaN when no quote comes back).  Arithmetic propagates
NaN; `Cost > 0` is false on NaN, as in numpy.  Per row:
`Value = Price*Shares`, `Cost = AvgBuy*Shares`, `P/L = Value - Cost`,
`P/L % = np.where(Cost > 0, P/L / Cost, nan)`.  Totals use
`sum(skipna=True)` and `total_pl_pct = total_pl / total_cost if
total_cost else nan`. -/

abbrev OptQ : Type := Option Rat

def omul (a b : OptQ) : OptQ :=
  match a, b with
  | some x, some y => some (x * y)
  | _, _ => none

def osub (a b : OptQ) : OptQ :=
  match a, b with
  | some x, some y => some (x - y)
  | _, _ => none

def odiv (a b : OptQ) : OptQ :=
  match a, b with
  | some x, some y => some (x / y)
  | _, _ => none

/-- `x > c` elementwise; false on NaN, like numpy comparisons. -/
def ogt (a : OptQ) (c : Rat) : Bool :=
  match a with
  | some x => c < x
  | none => false

/-- `Series.sum(skipna=True)`: NaN entries are skipped, empty sums to 0. -/
def osum (l : List OptQ) : Rat := (l.foldl (fun acc x => acc + x.getD 0) 0)

structure EqRow where
  shares : OptQ
  avgBuy : OptQ
  price : OptQ

def rowValue (r : EqRow) : OptQ := omul r.price r.shares

def rowCost (r : EqRow) : OptQ := omul r.avgBuy r.shares

def rowPL (r : EqRow) : OptQ := osub (rowValue r) (rowCost r)

def rowPLPct (r : EqRow) : OptQ :=
  if ogt (rowCost r) 0 then odiv (rowPL r) (rowCost r) else none

def totalValue (rows : List EqRow) : Rat := osum (rows.map rowValue)

def totalCost (rows : List EqRow) : Rat := osum (rows.map rowCost)

def totalPL (rows : List EqRow) : Rat := osum (rows.map rowPL)

def totalPLPct (rows : List EqRow) : OptQ :=
  if totalCost rows == 0 then none else some (totalPL rows / totalCost rows)

/-! ## Theorems -/

theorem b64Char_mem (i : Nat) : b64Char i ∈ b64List := by
  have hlt : i % 64 < 64 := Nat.mod_lt _ (by omega)
  have hall : ∀ j, j < 64 → b64List.getD j 'A' ∈ b64List := by decide
  exact hall (i % 64) hlt

theorem b64Body_split (bs : List Nat) :
    ∃ e p, b64Body bs = e ++ p ∧ (∀ c ∈ e, c ∈ b64List) ∧ ∀ c ∈ p, c = '=' := by
  induction bs using b64Body.induct with
  | case1 =>
    exact ⟨[], [], rfl, by simp, by simp⟩
  | case2 b0 =>
    refine ⟨[b64Char (b0 / 4), b64Char (b0 % 4 * 16)], ['=', '='], rfl, ?_, ?_⟩ <;>
      simp [b64Char_mem]
  | case3 b0 b1 =>
    refine ⟨[b64Char (b0 / 4), b64Char (b0 % 4 * 16 + b1 / 16), b64Char (b1 % 16 * 4)],
      ['='], rfl, ?_, ?_⟩ <;> simp [b64Char_mem]
  | case4 b0 b1 b2 rest ih =>
    obtain ⟨e, p, heq, he, hp⟩ := ih
    refine ⟨b64Char (b0 / 4) :: b64Char (b0 % 4 * 16 + b1 / 16) ::
      b64Char (b1 % 16 * 4 + b2 / 64) :: b64Char (b2 % 64) :: e, p, ?_, ?_, hp⟩
    · simp [b64Body, heq]
    · intro c hc
      simp only [List.mem_cons] at hc
      rcases hc with h | h | h | h | h
      all_goals first
        | (subst h; exact b64Char_mem _)
        | exact he c h

theorem dropWhile_eq_of_all_eq (l r : List Char) (h : ∀ c ∈ l, c = '=') :
    List.dropWhile (fun c => c == '=') (l ++ r) = List.dropWhile (fun c => c == '=') r := by
  induction l with
  | nil => rfl
  | cons a t ih =>
    have ha : a = '=' := h a (by simp)
    subst ha
    rw [List.cons_append, List.dropWhile_cons_of_pos (by simp)]
    exact ih (fun c hc => h c (List.mem_cons_of_mem _ hc))

theorem mem_of_mem_dropWhile (p : Char → Bool) (l : List Char) (c : Char)
    (h : c ∈ List.dropWhile p l) : c ∈ l := by
  induction l with
  | nil => simp at h
  | cons a t ih =>
    by_cases hp : p a
    · rw [List.dropWhile_cons_of_pos hp] at h
      exact List.mem_cons_of_mem _ (ih h)
    · rwa [List.dropWhile_cons_of_neg hp] at h

theorem stripPad_chars_of_split (e p : List Char) (he : ∀ c ∈ e, c ∈ b64List)
    (hp : ∀ c ∈ p, c = '=') :
    ∀ c ∈ (stripPad (String.mk (e ++ p))).data, c ∈ b64List := by
  intro c hc
  simp only [stripPad] at hc
  have hrev : (e ++ p).reverse = p.reverse ++ e.reverse := List.reverse_append e p
  rw [hrev, dropWhile_eq_of_all_eq p.reverse e.reverse
    (fun d hd => hp d (List.mem_reverse.mp hd))] at hc
  have := List.mem_reverse.mp hc
  exact he c (List.mem_reverse.mp (mem_of_mem_dropWhile _ _ _ this))

theorem b64List_safe : ∀ c ∈ b64List, c ≠ '=' ∧ c ≠ '+' ∧ c ≠ '/' := by decide

/-- C1: `challenge(V)` is the base64url encoding of the SHA-256 digest of
the ASCII bytes of `V` with trailing `=` padding removed; it is a pure
function of `V`, and its output never contains `=`, `+` or `/`. -/
theorem challenge_is_padless_urlsafe_b64_sha256 (V : String) :
    challenge V = stripPad (base64url (sha256 (V.data.map Char.toNat))) ∧
    ∀ c ∈ (challenge V).data, c ≠ '=' ∧ c ≠ '+' ∧ c ≠ '/' := by
  refine ⟨rfl, ?_⟩
  intro c hc
  obtain ⟨e, p, heq, he, hp⟩ := b64Body_split (sha256 (V.data.map Char.toNat))
  have hmem : c ∈ b64List := by
    apply stripPad_chars_of_split e p he hp
    have : base64url (sha256 (V.data.map Char.toNat)) = String.mk (e ++ p) := by
      simp [base64url, heq]
    simpa [challenge, this] using hc
  exact b64List_safe c hmem

set_option maxRecDepth 10000 in
/-- Sanity check against the RFC 7636 style test value: the challenge of
the empty verifier is the padless base64url of the SHA-256 of no bytes. -/
theorem challenge_empty_value :
    challenge "" = "47DEQpj8HBSa-_TImW-5JCeuQeRkm5NMpJWZG3hSuFU" := by decide

set_option maxRecDepth 10000 in
/-- C1 witness: a concrete character of a concrete challenge is in range
and is none of the padding/unsafe characters. -/
theorem challenge_is_padless_urlsafe_b64_sha256_witness :
    '4' ∈ (challenge "").data ∧ '4' ≠ '=' ∧ '4' ≠ '+' ∧ '4' ≠ '/' :=
  ⟨by decide, (challenge_is_padless_urlsafe_b64_sha256 "").2 '4' (by decide)⟩

theorem lookup_filter_self (s : List (String × FlowRecord)) (id : String) :
    List.lookup id (List.filter (fun p => p.1 != id) s) = none := by
  induction s with
  | nil => rfl
  | cons a t ih =>
    by_cases h : a.1 = id
    · simp [List.filter_cons, h, ih]
    · have hb : (id == a.1) = false := beq_eq_false_iff_ne.mpr fun hh => h hh.symm
      simp [List.filter_cons, h, List.lookup, hb, ih]

theorem filter_eq_id_after_remove (s : List (String × FlowRecord)) (id : String) :
    List.filter (fun p => p.1 == id) (List.filter (fun p => p.1 != id) s) = [] := by
  induction s with
  | nil => rfl
  | cons a t ih =>
    by_cases h : a.1 = id
    · simp [List.filter_cons, h, ih]
    · simp [List.filter_cons, h, ih]

/-- C2: a stored flow id is popped exactly once: the first `pop` returns
the stored verifier and removes the record, and a second `pop` with the
same id fails with `FlowNotFound`. -/
theorem pop_exactly_once (s : FlowStore) (id v : String) (now : Nat) :
    ∃ s2, pop (put s id v now) id = .ok (v, s2) ∧ pop s2 id = .error .FlowNotFound := by
  refine ⟨List.filter (fun p => p.1 != id) (put s id v now), ?_, ?_⟩
  · simp [pop, put, List.lookup]
  · simp only [pop, put]
    rw [lookup_filter_self]

/-- C6: `put` is total, records the supplied timestamp, and silently
overwrites: after `put`, the store maps the flow id to the new verifier
and holds exactly one record for that id, whatever was there before. -/
theorem put_overwrites_silently (s : FlowStore) (id v : String) (now : Nat) :
    List.lookup id (put s id v now) = some ⟨v, now⟩ ∧
    List.filter (fun p => p.1 == id) (put s id v now) = [(id, ⟨v, now⟩)] := by
  constructor
  · simp [put, List.lookup]
  · simp only [put, List.filter_cons, beq_self_eq_true, if_pos,
      filter_eq_id_after_remove]

/-- C3: `exchange` on a flow id absent from the store fails with
`FlowNotFound`, leaves the store unchanged, and issues no request to the
token endpoint. -/
theorem exchange_unknown_flow (endpoint : TokenRequest → HttpResponse)
    (clientId redirectUri code flowId : String) (store : FlowStore)
    (h : List.lookup flowId store = none) :
    exchange endpoint clientId redirectUri store code flowId =
      (.error .FlowNotFound, store, []) := by
  simp [exchange, pop, h]

/-- C3 witness: concrete run on the empty store. -/
theorem exchange_unknown_flow_witness :
    List.lookup "f1" ([] : FlowStore) = none ∧
    exchange (fun _ => ⟨200, "ok", some "tok", none⟩) "cid" "https://cb" [] "code1" "f1" =
      (.error .FlowNotFound, [], []) :=
  ⟨rfl, exchange_unknown_flow _ "cid" "https://cb" "code1" "f1" [] rfl⟩

/-- C4: when the popped verifier exists, `exchange` issues exactly one
request (never retried); a non-success status yields
`TokenExchangeFailed` carrying that status and body, and a success
response without an access token yields `MissingAccessToken`. -/
theorem exchange_response_errors (endpoint : TokenRequest → HttpResponse)
    (clientId redirectUri code flowId v : String) (store s2 : FlowStore)
    (h : pop store flowId = .ok (v, s2)) :
    (isSuccess (endpoint (mkTokenRequest clientId redirectUri code v)).status = false →
      exchange endpoint clientId redirectUri store code flowId =
        (.error (.TokenExchangeFailed
            (endpoint (mkTokenRequest clientId redirectUri code v)).status
            (endpoint (mkTokenRequest clientId redirectUri code v)).body),
          s2, [mkTokenRequest clientId redirectUri code v])) ∧
    (isSuccess (endpoint (mkTokenRequest clientId redirectUri code v)).status = true →
      (endpoint (mkTokenRequest clientId redirectUri code v)).accessToken = none →
      exchange endpoint clientId redirectUri store code flowId =
        (.error .MissingAccessToken, s2, [mkTokenRequest clientId redirectUri code v])) := by
  constructor
  · intro hfail
    simp [exchange, h, hfail]
  · intro hok hmiss
    simp [exchange, h, hok, hmiss]

/-- C4 witness: a 400 response surfaces as `TokenExchangeFailed 400`
with the body, with exactly one request issued, and a 200 response with
no access token surfaces as `MissingAccessToken`. -/
theorem exchange_response_errors_witness :
    pop (put [] "f1" "ver1" 0) "f1" = .ok ("ver1", []) ∧
    exchange (fun _ => ⟨400, "bad_request", none, none⟩) "cid" "https://cb"
        (put [] "f1" "ver1" 0) "code1" "f1" =
      (.error (.TokenExchangeFailed 400 "bad_request"), [],
        [mkTokenRequest "cid" "https://cb" "code1" "ver1"]) ∧
    exchange (fun _ => ⟨200, "ok_no_token", none, none⟩) "cid" "https://cb"
        (put [] "f1" "ver1" 0) "code1" "f1" =
      (.error .MissingAccessToken, [],
        [mkTokenRequest "cid" "https://cb" "code1" "ver1"]) :=
  ⟨rfl,
   (exchange_response_errors _ "cid" "https://cb" "code1" "f1" "ver1"
     (put [] "f1" "ver1" 0) [] rfl).1 rfl,
   (exchange_response_errors _ "cid" "https://cb" "code1" "f1" "ver1"
     (put [] "f1" "ver1" 0) [] rfl).2 rfl rfl⟩

/-- C5: on a success response, `fetchPositions` returns exactly one row
per provider item; an item with no `NetPositionView` sub-object yields
a row whose numeric fields are all null, and never aborts the fetch or
drops other items. -/
theorem fetchPositions_one_row_per_item (status : Nat) (body : String)
    (items : List ProviderItem) (h : isSuccess status = true) :
    fetchPositions ⟨status, body, items⟩ = .ok (items.map rowOfItem) ∧
    (items.map rowOfItem).length = items.length ∧
    ∀ it ∈ items, it.netPositionView = none →
      (rowOfItem it).quantity = none ∧ (rowOfItem it).average_price = none ∧
      (rowOfItem it).last_price = none ∧ (rowOfItem it).market_value = none ∧
      (rowOfItem it).profit_loss = none := by
  refine ⟨by simp [fetchPositions, h], by simp, ?_⟩
  intro it _ hnone
  simp [rowOfItem, hnone]

def wfItem : ProviderItem := ⟨some ⟨"AAPL"⟩, some ⟨3, 100, 110, 330, 30⟩⟩

def badItem : ProviderItem := ⟨some ⟨"MSFT"⟩, none⟩

/-- C5 witness: one well-formed and one malformed item give two rows,
the second with null numeric fields. -/
theorem fetchPositions_one_row_per_item_witness :
    isSuccess 200 = true ∧
    fetchPositions ⟨200, "resp_body", [wfItem, badItem]⟩ =
      .ok [⟨some "AAPL", some 3, some 100, some 110, some 330, some 30⟩,
           ⟨some "MSFT", none, none, none, none, none⟩] ∧
    (rowOfItem badItem).quantity = none :=
  ⟨rfl,
   ((fetchPositions_one_row_per_item 200 "resp_body" [wfItem, badItem] rfl).1).trans rfl,
   ((fetchPositions_one_row_per_item 200 "resp_body" [wfItem, badItem] rfl).2.2
     badItem (by simp) rfl).1⟩

theorem pkceChar_mem (i : Nat) : pkceChar i ∈ pkceList := by
  have hlt : i % 66 < 66 := Nat.mod_lt _ (by omega)
  have hall : ∀ j, j < 66 → pkceList.getD j 'A' ∈ pkceList := by decide
  exact hall _ hlt

/-- C7: `generate rng n` has length exactly `n` (64 when called for a
verifier, 32 or more when called for a flow id) and every character of
it belongs to the allowed alphabet of upper/lower letters, digits and
the PKCE-safe punctuation characters. -/
theorem generate_length_and_alphabet (rng : Nat → Nat) (n : Nat) :
    (generate rng n).length = n ∧
    ∀ c ∈ (generate rng n).data, c ∈ pkceList := by
  constructor
  · simp [generate, String.length]
  · intro c hc
    simp only [generate] at hc
    obtain ⟨i, _, hi⟩ := List.mem_map.mp hc
    exact hi ▸ pkceChar_mem _

/-- C7 witness: a 64-character generated verifier has length 64 and a
concrete character of it is in the allowed alphabet. -/
theorem generate_length_and_alphabet_witness :
    (generate (fun i => i) 64).length = 64 ∧
    'A' ∈ (generate (fun i => i) 64).data ∧ 'A' ∈ pkceList :=
  ⟨(generate_length_and_alphabet (fun i => i) 64).1,
   by decide,
   (generate_length_and_alphabet (fun i => i) 64).2 'A' (by decide)⟩

theorem digit_char_spec (k : Nat) (h : k < 10) :
    (Char.ofNat (48 + k)).isDigit = true ∧ digitVal (Char.ofNat (48 + k)) = k := by
  interval_cases k <;> exact ⟨by decide, by decide⟩

theorem natDigitsFuel_all_digit (fuel n : Nat) :
    (∀ c ∈ natDigitsFuel fuel n, c.isDigit = true) ∧ natDigitsFuel fuel n ≠ [] := by
  induction fuel generalizing n with
  | zero =>
    refine ⟨?_, by simp [natDigitsFuel]⟩
    intro c hc
    simp only [natDigitsFuel, List.mem_singleton] at hc
    exact hc ▸ (digit_char_spec (n % 10) (Nat.mod_lt _ (by omega))).1
  | succ fuel ih =>
    by_cases h : n < 10
    · refine ⟨?_, by simp [natDigitsFuel, h]⟩
      intro c hc
      simp only [natDigitsFuel, if_pos h, List.mem_singleton] at hc
      exact hc ▸ (digit_char_spec n h).1
    · refine ⟨?_, by simp [natDigitsFuel, h]⟩
      intro c hc
      simp only [natDigitsFuel, if_neg h, List.mem_append, List.mem_singleton] at hc
      rcases hc with hc | hc
      · exact (ih (n / 10)).1 c hc
      · exact hc ▸ (digit_char_spec (n % 10) (Nat.mod_lt _ (by omega))).1

theorem natDigitsFuel_val (fuel n : Nat) (h : n ≤ fuel) :
    (natDigitsFuel fuel n).foldl (fun a c => a * 10 + digitVal c) 0 = n := by
  induction fuel generalizing n with
  | zero =>
    have hn : n = 0 := by omega
    subst hn
    simp [natDigitsFuel, (digit_char_spec 0 (by omega)).2]
  | succ fuel ih =>
    by_cases hlt : n < 10
    · simp [natDigitsFuel, hlt, (digit_char_spec n hlt).2]
    · have hdiv : n / 10 ≤ fuel := by
        have := Nat.div_lt_self (show 0 < n by omega) (show 1 < 10 by omega)
        omega
      simp only [natDigitsFuel, if_neg hlt, List.foldl_append, ih (n / 10) hdiv,
        List.foldl_cons, List.foldl_nil, (digit_char_spec (n % 10) (Nat.mod_lt _ (by omega))).2]
      omega

theorem parseDigits_natDigitChars (n : Nat) : parseDigits (natDigitChars n) = some n := by
  have hall := (natDigitsFuel_all_digit n n).1
  have hne := (natDigitsFuel_all_digit n n).2
  have hval := natDigitsFuel_val n n (le_refl n)
  simp only [parseDigits, natDigitChars]
  rw [if_pos]
  · exact congrArg some hval
  · exact ⟨hne, List.all_eq_true.mpr hall⟩

theorem digit_not_sign (c : Char) (h : c.isDigit = true) : c ≠ '-' ∧ c ≠ '+' := by
  constructor <;> rintro rfl <;> simp at h

theorem pyParseInt_pyStrOfInt (d : Int) : pyParseInt (pyStrOfInt d) = some d := by
  by_cases hd : d < 0
  · have hs : pyStrOfInt d = String.mk ('-' :: natDigitChars d.natAbs) := by
      simp [pyStrOfInt, hd]
    have h1 : pyParseInt (String.mk ('-' :: natDigitChars d.natAbs)) =
        (parseDigits (natDigitChars d.natAbs)).map (fun n => -(Int.ofNat n)) := by
      simp [pyParseInt]
    rw [hs, h1, parseDigits_natDigitChars]
    show some (-(Int.ofNat d.natAbs)) = some d
    congr 1
    show -((d.natAbs : Int)) = d
    omega
  · have hne := (natDigitsFuel_all_digit d.natAbs d.natAbs).2
    obtain ⟨c, cs, heq⟩ := List.exists_cons_of_ne_nil hne
    have heq2 : natDigitChars d.natAbs = c :: cs := heq
    have hcdig : c.isDigit = true :=
      (natDigitsFuel_all_digit d.natAbs d.natAbs).1 c (by rw [heq]; exact List.mem_cons_self _ _)
    obtain ⟨hm, hp⟩ := digit_not_sign c hcdig
    have hs : pyStrOfInt d = String.mk (c :: cs) := by
      simp [pyStrOfInt, hd, heq2]
    have h1 : pyParseInt (String.mk (c :: cs)) =
        (parseDigits (c :: cs)).map Int.ofNat := by
      simp [pyParseInt, hm, hp]
    rw [hs, h1, ← heq2, parseDigits_natDigitChars]
    show some (Int.ofNat d.natAbs) = some d
    congr 1
    show ((d.natAbs : Int)) = d
    omega

theorem dropWhile_id_of_none (p : Char → Bool) (l : List Char)
    (h : ∀ c ∈ l, p c = false) : l.dropWhile p = l := by
  cases l with
  | nil => rfl
  | cons a t =>
    exact List.dropWhile_cons_of_neg (by simp [h a (List.mem_cons_self _ _)])

theorem pyStrip_id_of_no_ws (l : List Char) (h : ∀ c ∈ l, c.isWhitespace = false) :
    pyStrip (String.mk l) = String.mk l := by
  simp only [pyStrip]
  rw [dropWhile_id_of_none _ l h,
    dropWhile_id_of_none _ l.reverse (fun c hc => h c (List.mem_reverse.mp hc)),
    List.reverse_reverse]

theorem digit_not_ws (c : Char) (h : c.isDigit = true) : c.isWhitespace = false := by
  by_contra hw
  have hw2 : c.isWhitespace = true := by
    cases hcase : c.isWhitespace
    · exact absurd hcase hw
    · rfl
  simp only [Char.isWhitespace, Bool.or_eq_true, decide_eq_true_eq] at hw2
  rcases hw2 with ((rfl | rfl) | rfl) | rfl <;> exact absurd h (by decide)

theorem pyStrip_pyStrOfInt (d : Int) : pyStrip (pyStrOfInt d) = pyStrOfInt d := by
  by_cases hd : d < 0
  · have hs : pyStrOfInt d = String.mk ('-' :: natDigitChars d.natAbs) := by
      simp [pyStrOfInt, hd]
    rw [hs]
    apply pyStrip_id_of_no_ws
    intro c hc
    rcases List.mem_cons.mp hc with rfl | hc
    · decide
    · exact digit_not_ws c ((natDigitsFuel_all_digit d.natAbs d.natAbs).1 c hc)
  · have hs : pyStrOfInt d = String.mk (natDigitChars d.natAbs) := by
      simp [pyStrOfInt, hd]
    rw [hs]
    exact pyStrip_id_of_no_ws _
      (fun c hc => digit_not_ws c ((natDigitsFuel_all_digit d.natAbs d.natAbs).1 c hc))

/-- C8: `get_int_conf` is total (never raises, whatever the secrets
source, environment and key do): it returns the parsed integer whenever
the stripped raw configuration string parses, and the supplied default
whenever parsing fails or the key is configured nowhere. -/
theorem get_int_conf_total (secrets : Except Unit (List (String × String)))
    (env : String → Option String) (key : String) (default : Int) :
    (∀ n, pyParseInt (pyStrip (get_conf secrets env key (pyStrOfInt default))) = some n →
      get_int_conf secrets env key default = n) ∧
    (pyParseInt (pyStrip (get_conf secrets env key (pyStrOfInt default))) = none →
      get_int_conf secrets env key default = default) ∧
    (env key = none →
      (secrets = .error () ∨ ∃ m, secrets = .ok m ∧ List.lookup key m = none) →
      get_int_conf secrets env key default = default) := by
  refine ⟨?_, ?_, ?_⟩
  · intro n hn
    simp [get_int_conf, hn]
  · intro hn
    simp [get_int_conf, hn]
  · intro henv hsec
    have hconf : get_conf secrets env key (pyStrOfInt default) = pyStrOfInt default := by
      rcases hsec with h | ⟨m, hm, hl⟩
      · subst h
        simp [get_conf, henv]
      · subst hm
        simp [get_conf, hl, henv]
    simp [get_int_conf, hconf, pyStrip_pyStrOfInt, pyParseInt_pyStrOfInt]

/-- C8 witness: a configured value parses, a garbage value falls back to
the default, and a missing key falls back to the default. -/
theorem get_int_conf_total_witness :
    get_int_conf (.ok [("REFRESH_SECONDS", "45")]) (fun _ => none) "REFRESH_SECONDS" 60 = 45 ∧
    get_int_conf (.ok [("REFRESH_SECONDS", " 45 ")]) (fun _ => none) "REFRESH_SECONDS" 60 = 45 ∧
    get_int_conf (.ok [("APP_TIMEZONE", "Asia/Dubai")]) (fun _ => none) "APP_TIMEZONE" 60 = 60 ∧
    get_int_conf (.ok [("OTHER", "1")]) (fun _ => none) "REFRESH_SECONDS" 60 = 60 ∧
    get_int_conf (.error ()) (fun _ => none) "REFRESH_SECONDS" 60 = 60 :=
  ⟨(get_int_conf_total _ _ _ _).1 45 (by decide),
   (get_int_conf_total _ _ _ _).1 45 (by decide),
   (get_int_conf_total _ _ _ _).2.1 (by decide),
   (get_int_conf_total _ _ _ _).2.2 rfl (.inr ⟨_, rfl, by decide⟩),
   (get_int_conf_total _ _ _ _).2.2 rfl (.inl rfl)⟩

/-- C9: `load_csv` never raises: it returns the parsed frame when the
reader succeeds and the empty frame when the reader raises; the page
gate treats the empty frame as the data source being absent. -/
theorem load_csv_total (r : Except String Frame) :
    (r = .ok (load_csv r) ∨ (load_csv r = Frame.empty ∧ ∃ e, r = .error e)) ∧
    stopsPage Frame.empty = true := by
  refine ⟨?_, rfl⟩
  cases r with
  | ok df => exact .inl rfl
  | error e => exact .inr ⟨rfl, e, rfl⟩

/-- C10: profit/loss percentages are division-guarded.  Per row,
`P/L %` is `P/L / Cost` exactly when `Cost > 0` and NaN otherwise, so a
`some` result always has a strictly positive cost as denominator;
`total_pl_pct` is `total_pl / total_cost` when `total_cost` is nonzero
and NaN when it is zero. -/
theorem plpct_division_guarded (rows : List EqRow) (r : EqRow) :
    (ogt (rowCost r) 0 = true → rowPLPct r = odiv (rowPL r) (rowCost r)) ∧
    (ogt (rowCost r) 0 = false → rowPLPct r = none) ∧
    (∀ v, rowPLPct r = some v → ∃ q, rowCost r = some q ∧ 0 < q) ∧
    (totalCost rows ≠ 0 → totalPLPct rows = some (totalPL rows / totalCost rows)) ∧
    (totalCost rows = 0 → totalPLPct rows = none) := by
  refine ⟨?_, ?_, ?_, ?_, ?_⟩
  · intro h
    simp [rowPLPct, h]
  · intro h
    simp [rowPLPct, h]
  · intro v hv
    by_cases h : ogt (rowCost r) 0 = true
    · match hc : rowCost r with
      | some q =>
        refine ⟨q, rfl, ?_⟩
        rw [hc] at h
        simpa [ogt] using h
      | none =>
        rw [hc] at h
        simp [ogt] at h
    · rw [rowPLPct, if_neg h] at hv
      exact absurd hv (by simp)
  · intro h
    simp [totalPLPct, h]
  · intro h
    simp [totalPLPct, h]

/-- C10 witness: a positive-cost row gets a ratio, a zero-cost row gets
NaN, a one-row portfolio gets a total ratio, and an empty portfolio
(zero total cost) gets NaN. -/
theorem plpct_division_guarded_witness :
    rowPLPct ⟨some 2, some 5, some 6⟩ =
      odiv (rowPL ⟨some 2, some 5, some 6⟩) (rowCost ⟨some 2, some 5, some 6⟩) ∧
    rowPLPct ⟨some 0, some 5, some 6⟩ = none ∧
    (∃ q, rowCost ⟨some 2, some 5, some 6⟩ = some q ∧ 0 < q) ∧
    totalPLPct [⟨some 2, some 5, some 6⟩] =
      some (totalPL [⟨some 2, some 5, some 6⟩] / totalCost [⟨some 2, some 5, some 6⟩]) ∧
    totalPLPct [] = none :=
  ⟨(plpct_division_guarded [] ⟨some 2, some 5, some 6⟩).1
     (by norm_num [ogt, rowCost, omul]),
   (plpct_division_guarded [] ⟨some 0, some 5, some 6⟩).2.1
     (by norm_num [ogt, rowCost, omul]),
   (plpct_division_guarded [] ⟨some 2, some 5, some 6⟩).2.2.1 ((1 : Rat) / 5)
     (by norm_num [rowPLPct, ogt, rowCost, rowPL, rowValue, omul, osub, odiv]),
   (plpct_division_guarded [⟨some 2, some 5, some 6⟩] ⟨none, none, none⟩).2.2.2.1
     (by norm_num [totalCost, osum, rowCost, omul]),
   (plpct_division_guarded [] ⟨none, none, none⟩).2.2.2.2 rfl⟩

end PortfolioApp
